import Mathlib

/-!
Verification of the symptom-guidance application (src/medical_app.py).

The Python source is shallowly embedded below.  Pure string manipulation
(red-flag scanning, whitespace normalization, prompt assembly, PDF text
sanitization) is translated into executable Lean functions over
List Char / String; the effectful parts (temporary-file lifecycle,
Streamlit control flow in main) are embedded as pure functions from an
explicit input/oracle record to an outcome record whose fields describe
the externally visible effects (text shown, prompt sent, file state).
-/

/- ===== Character classes =====
Python 3 regular expressions on str are Unicode-aware.

isPySpace is the complete whitespace class: re's \s, str.isspace() and
str.strip() all use the same classification, whose full extent is the
29 code points listed below (the ASCII control whitespace 9-13 and
28-31, the space 32, NEL 133, NBSP 160, the Ogham space mark 5760, the
typographic spaces 8192-8202, the line and paragraph separators 8232
and 8233, 8239, 8287, and the ideographic space 12288).  This
definition agrees with the program on every character.

isWordChar implements re's \w exactly on the ASCII range (letters,
digits, underscore) and classifies every character above 127 as
non-word; Unicode \w additionally accepts non-ASCII letters, digits
and numerics, so isWordChar is an under-approximation of the
program's class, exact below 128.  Likewise Char.toLower agrees with
str.lower() exactly on the ASCII range and is the identity above it.
The positive matching theorems below therefore require the characters
adjacent to a phrase, and the phrase letters themselves, to be ASCII —
the range on which the embedded classes coincide with the program's —
while the negative theorem about word boundaries only uses that every
word character of the model is a word character of the program. -/

def isWordChar (c : Char) : Bool :=
  c.isAlphanum || c == '_'

def isPySpace (c : Char) : Bool :=
  c.toNat == 9 || c.toNat == 10 || c.toNat == 11 || c.toNat == 12 || c.toNat == 13 ||
    (28 ≤ c.toNat && c.toNat ≤ 31) || c.toNat == 32 || c.toNat == 133 ||
    c.toNat == 160 || c.toNat == 5760 || (8192 ≤ c.toNat && c.toNat ≤ 8202) ||
    c.toNat == 8232 || c.toNat == 8233 || c.toNat == 8239 || c.toNat == 8287 ||
    c.toNat == 12288

/-- str.lower() on the underlying character list (exact on ASCII,
identity above 127; the theorems below only depend on it there). -/
def lowerStr (l : List Char) : List Char :=
  l.map Char.toLower

/- ===== Red-flag regex matching =====
Every pattern in RED_FLAGS (medical_app.py lines 64-70) has the uniform
shape \b w1 \s* w2 \b where w1 and w2 are nonempty lowercase words.
Because w1 starts with a word character, the leading \b holds exactly
when the match position is the start of the text or preceded by a
non-word character; because w2 ends with a word character, the trailing
\b holds exactly when the text ends there or continues with a non-word
character; because w2 starts with a non-space character, the greedy \s*
deterministically consumes the whitespace run after w1.  matchHere,
searchFrom and reSearch implement exactly that pattern semantics:
re.search tries every start position left to right. -/

def stripPrefixCh : List Char → List Char → Option (List Char)
  | [], t => some t
  | _ :: _, [] => none
  | p :: ps, c :: cs => if p == c then stripPrefixCh ps cs else none

/-- Attempt to match the pattern \b w1 \s* w2 \b at the current position
(the leading boundary is checked by the caller). -/
def matchHere (w1 w2 t : List Char) : Bool :=
  match stripPrefixCh w1 t with
  | none => false
  | some r1 =>
    match stripPrefixCh w2 (r1.dropWhile isPySpace) with
    | none => false
    | some r3 =>
      match r3 with
      | [] => true
      | c :: _ => !(isWordChar c)

/-- The \b condition before w1: start of text or a non-word character. -/
def boundaryB : Option Char → Bool
  | none => true
  | some c => !(isWordChar c)

/-- re.search scanning: try a match at every position; prev is the
character preceding the current position (none at the start). -/
def searchFrom (w1 w2 : List Char) : Option Char → List Char → Bool
  | prev, [] => boundaryB prev && matchHere w1 w2 []
  | prev, c :: rest =>
    (boundaryB prev && matchHere w1 w2 (c :: rest)) || searchFrom w1 w2 (some c) rest

/-- re.search(flag_pattern, text) for a pattern \b w1 \s* w2 \b. -/
def reSearch (w1 w2 t : List Char) : Bool :=
  searchFrom w1 w2 none t

/-- RED_FLAGS (medical_app.py lines 64-70): each regex key
\b w1 \s* w2 \b is stored as the word pair (w1, w2) together with its
advisory message, in declaration order. -/
def RED_FLAGS : List ((String × String) × String) :=
  [(("chest", "pain"), "🚨 CALL 911: May indicate heart attack!"),
   (("difficulty", "breathing"), "🚨 Seek emergency care immediately!"),
   (("sudden", "numbness"), "🚨 Stroke warning - call emergency services!"),
   (("severe", "bleeding"), "🚨 Apply pressure and call for emergency help!"),
   (("suicidal", "thoughts"), "🚨 Contact emergency services or a crisis hotline immediately")]

/-- The for-loop of check_red_flags (lines 77-82): test each rule in
declaration order; on the first match return True together with the
advisory message shown via st.error; otherwise fall through. -/
def scanFlags : List ((String × String) × String) → List Char → Bool × Option String
  | [], _ => (false, none)
  | (pat, msg) :: rest, t =>
    if reSearch pat.1.data pat.2.data t then (true, some msg) else scanFlags rest t

/-- check_red_flags (lines 72-82).  The Bool is the Python return value
(hazard detected); the Option String is the advisory message displayed
via st.error on detection (the function also shows a second, fixed
warning line, not modelled separately).  The guard models
Python's `if not text: return False`. -/
def check_red_flags (text : String) : Bool × Option String :=
  if text = "" then (false, none)
  else scanFlags RED_FLAGS (lowerStr text.data)

example : (check_red_flags "I have chest pain").1 = true := by decide
example : (check_red_flags "chest   pain and more").1 = true := by decide
example : (check_red_flags "chest\npain").1 = true := by decide
example : check_red_flags "I have a headache" = (false, none) := by decide
example : check_red_flags "xchest painy" = (false, none) := by decide
example : check_red_flags "the orchestra painting" = (false, none) := by decide
example : (check_red_flags "chestpain").1 = true := by decide
example : check_red_flags "CHEST PAIN" =
    (true, some "🚨 CALL 911: May indicate heart attack!") := by decide
example : check_red_flags "" = (false, none) := rfl
example : (check_red_flags "headache then severe bleeding").2 =
    some "🚨 Apply pressure and call for emergency help!" := by decide
example : (check_red_flags "chest\u00A0pain").1 = true := by decide
example : (check_red_flags "chest\x1cpain").1 = true := by decide
example : (check_red_flags "chest\u2028pain").1 = true := by decide

/- ===== Text extraction and normalization =====
extract_text_from_file (medical_app.py lines 31-61).  The library-driven
raw extraction (PyPDF2 / python-docx / utf-8 decode) is an external
collaborator; the embedding takes the raw extracted text, and Booleans
saying which step raises, as an oracle, and renders the control flow
(try / except / finally, the with-block for the named temporary file)
exactly: each outcome field records an externally visible effect. -/

/-- First cleaning step (line 49): re.sub replacing every newline that is
not adjacent to another newline with a single space.  prev is the
character of the original text preceding the current position (the
lookbehind inspects the subject string, not the partially built result). -/
def subLonelyNL : Option Char → List Char → List Char
  | _, [] => []
  | prev, c :: rest =>
    if c = '\n' ∧ prev ≠ some '\n' ∧ rest.head? ≠ some '\n' then
      ' ' :: subLonelyNL (some c) rest
    else
      c :: subLonelyNL (some c) rest

/-- Second cleaning step (line 50): re.sub replacing every maximal run of
whitespace with a single space.  The flag records whether the previous
original character belonged to a whitespace run (in which case the
current whitespace character emits nothing: the run already emitted its
single space). -/
def subSpaces : Bool → List Char → List Char
  | _, [] => []
  | prevSpace, c :: rest =>
    if isPySpace c then
      (if prevSpace then subSpaces true rest else ' ' :: subSpaces true rest)
    else
      c :: subSpaces false rest

/-- str.strip() (line 51): drop whitespace from both ends. -/
def pyStrip (l : List Char) : List Char :=
  ((l.dropWhile isPySpace).reverse.dropWhile isPySpace).reverse

/-- The normalization applied to every extracted raw text
(lines 49-51 of extract_text_from_file). -/
def normalize_text (s : String) : String :=
  String.mk (pyStrip (subSpaces false (subLonelyNL none s.data)))

example : normalize_text "  hello\nworld  " = "hello world" := by decide
example : normalize_text "a\n\nb\tc   d" = "a b c d" := by decide
example : normalize_text "a\u00A0b" = "a b" := by decide
example : normalize_text "\u2009x\u3000" = "x" := by decide
example : normalize_text "   " = "" := by decide
example : normalize_text (normalize_text "a\n\nb\tc   d") =
    normalize_text "a\n\nb\tc   d" := by decide

/-- Which steps of one call to extract_text_from_file fail, plus the raw
text the format-specific extraction would produce when it succeeds. -/
structure ExtractOracle where
  createFails : Bool
  writeFails : Bool
  extractFails : Bool
  deleteFails : Bool
  rawText : String

/-- Externally visible effects of one call to extract_text_from_file:
the returned string, whether st.error reported a reading failure,
whether st.warning reported a cleanup failure, and whether the
temporary file is still on disk when the call returns. -/
structure ExtractOutcome where
  result : String
  errorShown : Bool
  cleanupWarning : Bool
  tmpExists : Bool

/-- extract_text_from_file (lines 31-61), path by path.

* NamedTemporaryFile itself raises: no file was created; the except
  clause reports and returns ""; the finally guard finds no tmp_path.
* tmp.write raises: the file was already created, but tmp_path is not
  yet assigned, so the finally guard ('tmp_path' in locals()) skips the
  unlink and the temporary file stays on disk while the except clause
  reports and returns "".
* After tmp_path is assigned, every exit (successful extraction or an
  extraction exception caught by the except clause) runs the unlink in
  the finally block; if the unlink raises, the inner except turns it
  into a non-blocking st.warning and the file remains. -/
def extract_text_from_file (o : ExtractOracle) : ExtractOutcome :=
  if o.createFails then
    { result := "", errorShown := true, cleanupWarning := false, tmpExists := false }
  else if o.writeFails then
    { result := "", errorShown := true, cleanupWarning := false, tmpExists := true }
  else
    let finallyCleanup := fun (res : String) (err : Bool) =>
      if o.deleteFails then
        { result := res, errorShown := err, cleanupWarning := true, tmpExists := true }
      else
        { result := res, errorShown := err, cleanupWarning := false, tmpExists := false }
    if o.extractFails then finallyCleanup "" true
    else finallyCleanup (normalize_text o.rawText) false

/- ===== Prompt construction and the main flow ===== -/

/-- grade_levels (lines 132-134): the fixed reading-level table. -/
def grade_levels : List (Nat × String) :=
  [(1, "5th grade"), (2, "7th grade"), (3, "9th grade"),
   (4, "11th grade"), (5, "College level")]

/-- selected_level = grade_levels[reading_level] (line 134).  The slider
(lines 124-130) confines reading_level to 1..5, exactly the domain of
the table; outside it the Python lookup would raise, modelled by "". -/
def selectedLevel (n : Nat) : String :=
  (grade_levels.lookup n).getD ""

/- The f-string of lines 172-187, split at its three interpolation
holes; each line of the triple-quoted literal carries the 20-space
indentation it has in the source. -/

def promptSeg1 : String :=
  "\n                    You are a health assistant for patients seeing a "

def promptSeg2 : String :=
  ".\n                    Given these symptoms: "

def promptSeg3 : String :=
  "\n                    \n                    Create a guide at "

def promptSeg4 : String :=
  " reading level:\n                    1. Possible causes (plain language, no diagnosis)\n                    2. 5 priority questions for the doctor\n                    3. Appointment preparation tips\n                    \n                    Rules:\n                    - Use bullet points\n                    - For level 1-2: Max 1-2 syllable words\n                    - For level 3-4: May include medical terms with explanations\n                    - Never suggest treatments\n                    - Use only standard ASCII characters\n                    "

/-- The instruction string sent to the generator (lines 172-187). -/
def buildPrompt (doctor_specialty selected_level symptoms : String) : String :=
  promptSeg1 ++ doctor_specialty ++ promptSeg2 ++ symptoms ++
    promptSeg3 ++ selected_level ++ promptSeg4

/- ===== PDF generation ===== -/

/-- str.encode('ascii', 'replace').decode('ascii'): every character
above the ASCII range becomes the replacement character of the
'replace' error handler. -/
def asciiReplace (s : String) : String :=
  String.mk (s.data.map (fun c => if c.toNat ≤ 127 then c else '?'))

/-- The text blocks of the rendered PDF, in page order. -/
structure PdfDoc where
  title : String
  symptomsCell : String
  guidanceCell : String
  disclaimer : String

/-- create_medical_pdf (lines 85-107): the title cell, the sanitized
symptoms multi_cell, the guidance multi_cell built from safe_text, and
the disclaimer multi_cell, exactly as written to the document. -/
def create_medical_pdf (symptoms guide : String) : PdfDoc :=
  let safe_text := asciiReplace guide
  { title := "Your Medical Visit Summary"
    symptomsCell := asciiReplace ("Symptoms:\n" ++ symptoms)
    guidanceCell := "Guidance:\n" ++ safe_text
    disclaimer := "Disclaimer: This document is not medical advice. Always consult a healthcare professional." }

/- ===== The Streamlit main flow (lines 118-225) ===== -/

/-- One run of the script body: the widget states and, when a file is
uploaded, the string extract_text_from_file returned for it; genChunks
are the text fragments the external generator streams back. -/
structure AppInput where
  uploadedText : Option String
  manualText : String
  buttonPressed : Bool
  specialty : String
  readingLevel : Nat
  genChunks : List String

/-- Externally visible outcome of one run: whether st.stop() halted the
script at a red flag, the prompt sent to the generator (none when no
generation call was made), and the final accumulated guidance text. -/
structure AppResult where
  halted : Bool
  promptSent : Option String
  guidance : Option String

/-- The generation block (lines 166-222): only reached when the script
was not stopped; on the button press with nonempty symptoms it builds
the prompt, streams the chunks, and joins them into the guide. -/
def generateSection (inp : AppInput) (symptoms : String) : AppResult :=
  if inp.buttonPressed then
    if symptoms = "" then
      { halted := false, promptSent := none, guidance := none }
    else
      { halted := false
        promptSent := some (buildPrompt inp.specialty (selectedLevel inp.readingLevel) symptoms)
        guidance := some (String.join inp.genChunks) }
  else
    { halted := false, promptSent := none, guidance := none }

/-- main (lines 118-225).  `if uploaded_file:` — when a file is present
and its extracted text is nonempty, symptoms is replaced by it and
scanned, st.stop() halting on a detection; when the extracted text is
empty the script falls through to the button with the manual text,
which the `elif symptoms:` branch then never scans.  Without a file the
manual text is scanned when nonempty. -/
def mainStep (inp : AppInput) : AppResult :=
  match inp.uploadedText with
  | some extracted =>
    if extracted ≠ "" then
      if (check_red_flags extracted).1 then
        { halted := true, promptSent := none, guidance := none }
      else generateSection inp extracted
    else generateSection inp inp.manualText
  | none =>
    if inp.manualText ≠ "" then
      if (check_red_flags inp.manualText).1 then
        { halted := true, promptSent := none, guidance := none }
      else generateSection inp inp.manualText
    else generateSection inp inp.manualText

/-- The symptom text a run would hand to the generator: the extracted
text when a file was uploaded and extraction produced something, the
manual text otherwise. -/
def effectiveText (inp : AppInput) : String :=
  match inp.uploadedText with
  | some extracted => if extracted ≠ "" then extracted else inp.manualText
  | none => inp.manualText

example :
    (mainStep ⟨none, "I have chest pain", true, "General Practitioner", 3, []⟩).halted
      = true := by decide
example :
    (mainStep ⟨some "", "I have chest pain", true, "General Practitioner", 3, ["x"]⟩).promptSent
      ≠ none := by decide
example :
    (mainStep ⟨some "I have chest pain", "", true, "General Practitioner", 3, []⟩).halted
      = true := by decide

/- ===== Specification-side helper definitions =====
Used only to state and prove properties of the embedded code. -/

/-- The character immediately before the suffix rest of prev-context
pre: the last character of pre, or the outer context when pre is empty. -/
def lastOr : List Char → Option Char → Option Char
  | [], prev => prev
  | c :: pre, _ => lastOr pre (some c)

/-- The whitespace-separated words of a character list, in order: a
non-space character either opens a new word (at the start, or when
followed by whitespace it is a one-character word) or extends the word
the remainder starts with. -/
def wordsOf : List Char → List (List Char)
  | [] => []
  | c :: rest =>
    if isPySpace c then wordsOf rest
    else
      match rest with
      | [] => [[c]]
      | d :: _ =>
        if isPySpace d then [c] :: wordsOf rest
        else
          match wordsOf rest with
          | [] => [[c]]
          | w :: ws => (c :: w) :: ws

/-- Words joined with exactly one space between consecutive words. -/
def joinWords : List (List Char) → List Char
  | [] => []
  | w :: ws =>
    match ws with
    | [] => w
    | _ :: _ => w ++ ' ' :: joinWords ws

example : wordsOf " ab  cd ".data = ["ab".data, "cd".data] := by decide
example : joinWords ["ab".data, "cd".data] = "ab cd".data := by decide

/-- Whether n is a prefix of the second list. -/
def isPrefixCh : List Char → List Char → Bool
  | [], _ => true
  | _ :: _, [] => false
  | a :: as, b :: bs => a == b && isPrefixCh as bs

/-- Whether n occurs as a contiguous sublist of h. -/
def containsAux (n : List Char) : List Char → Bool
  | [] => isPrefixCh n []
  | c :: rest => isPrefixCh n (c :: rest) || containsAux n rest

/-- Whether needle occurs contiguously inside hay. -/
def strContains (hay needle : String) : Bool :=
  containsAux needle.data hay.data

example : strContains "hello world" "lo wo" = true := by decide
example : strContains "hello world" "low" = false := by decide

/- ===== Lemmas about the red-flag matcher ===== -/

theorem stripPrefixCh_self (p t : List Char) : stripPrefixCh p (p ++ t) = some t := by
  induction p with
  | nil => rfl
  | cons a as ih => simp [stripPrefixCh, ih]

theorem stripPrefixCh_sound :
    ∀ (p t r : List Char), stripPrefixCh p t = some r → t = p ++ r := by
  intro p
  induction p with
  | nil =>
    intro t r h
    simp only [stripPrefixCh, Option.some.injEq] at h
    simpa using h
  | cons a as ih =>
    intro t r h
    cases t with
    | nil => simp [stripPrefixCh] at h
    | cons b bs =>
      simp only [stripPrefixCh] at h
      split at h
      · next hab =>
        have hb : a = b := by simpa using hab
        subst hb
        rw [ih bs r h]
        rfl
      · exact absurd h (by simp)

theorem dropWhile_append_all {p : Char → Bool} :
    ∀ (a b : List Char), (∀ c ∈ a, p c = true) →
      List.dropWhile p (a ++ b) = List.dropWhile p b := by
  intro a
  induction a with
  | nil => intro b _; rfl
  | cons c a' ih =>
    intro b h
    have hc : p c = true := h c (List.mem_cons_self c a')
    simp only [List.cons_append, List.dropWhile_cons, hc, if_true]
    exact ih b (fun x hx => h x (List.mem_cons_of_mem c hx))

theorem dropWhile_head_false {p : Char → Bool} (c : Char) (l : List Char)
    (h : p c = false) : List.dropWhile p (c :: l) = c :: l := by
  simp [List.dropWhile_cons, h]

theorem matchHere_complete (w1 w2 ws post : List Char)
    (hw2ne : w2 ≠ []) (hw2hd : ∀ c ∈ w2.head?, isPySpace c = false)
    (hws : ∀ c ∈ ws, isPySpace c = true)
    (hpost : ∀ c ∈ post.head?, isWordChar c = false) :
    matchHere w1 w2 (w1 ++ (ws ++ (w2 ++ post))) = true := by
  obtain ⟨b, w2', rfl⟩ : ∃ b w2', w2 = b :: w2' := by
    cases w2 with
    | nil => exact absurd rfl hw2ne
    | cons b w2' => exact ⟨b, w2', rfl⟩
  have hb : isPySpace b = false := hw2hd b rfl
  have h1 : List.dropWhile isPySpace (ws ++ ((b :: w2') ++ post)) = (b :: w2') ++ post := by
    calc List.dropWhile isPySpace (ws ++ ((b :: w2') ++ post))
        = List.dropWhile isPySpace ((b :: w2') ++ post) := dropWhile_append_all ws _ hws
      _ = (b :: w2') ++ post := by
          rw [List.cons_append]
          exact dropWhile_head_false b _ hb
  simp only [matchHere, stripPrefixCh_self, h1]
  cases post with
  | nil => rfl
  | cons q qs =>
    have hq : isWordChar q = false := hpost q rfl
    simp [hq]

theorem searchFrom_complete (w1 w2 : List Char) :
    ∀ (pre rest : List Char) (prev : Option Char),
      boundaryB (lastOr pre prev) = true → matchHere w1 w2 rest = true →
      searchFrom w1 w2 prev (pre ++ rest) = true := by
  intro pre
  induction pre with
  | nil =>
    intro rest prev hb hm
    have hb' : boundaryB prev = true := hb
    cases rest with
    | nil => simp [searchFrom, hb', hm]
    | cons c r => simp [searchFrom, hb', hm]
  | cons c pre' ih =>
    intro rest prev hb hm
    simp only [List.cons_append, searchFrom]
    have h2 : searchFrom w1 w2 (some c) (pre' ++ rest) = true := ih rest (some c) hb hm
    simp [h2]

theorem reSearch_complete (w1 w2 pre ws post : List Char)
    (hw2ne : w2 ≠ []) (hw2hd : ∀ c ∈ w2.head?, isPySpace c = false)
    (hws : ∀ c ∈ ws, isPySpace c = true)
    (hpre : ∀ c ∈ pre.getLast?, isWordChar c = false)
    (hpost : ∀ c ∈ post.head?, isWordChar c = false) :
    reSearch w1 w2 (pre ++ (w1 ++ (ws ++ (w2 ++ post)))) = true := by
  unfold reSearch
  refine searchFrom_complete w1 w2 pre _ none ?_
    (matchHere_complete w1 w2 ws post hw2ne hw2hd hws hpost)
  have hlast : ∀ (l : List Char) (prev : Option Char),
      lastOr l prev = match l.getLast? with | some c => some c | none => prev := by
    intro l
    induction l with
    | nil => intro prev; rfl
    | cons c l' ihl =>
      intro prev
      show lastOr l' (some c) = _
      rw [ihl (some c)]
      cases l' with
      | nil => rfl
      | cons d l'' =>
        rw [List.getLast?_cons_cons]
        cases h : (d :: l'').getLast? with
        | none => exact absurd (List.getLast?_eq_none_iff.mp h) (by simp)
        | some e => rfl
  rw [hlast pre none]
  cases h : pre.getLast? with
  | none => rfl
  | some c =>
    have := hpre c (by rw [Option.mem_def, h])
    simp [boundaryB, this]

theorem lastOr_spec : ∀ (l : List Char) (prev : Option Char),
    lastOr l prev = match l.getLast? with | some c => some c | none => prev := by
  intro l
  induction l with
  | nil => intro prev; rfl
  | cons c l' ihl =>
    intro prev
    show lastOr l' (some c) = _
    rw [ihl (some c)]
    cases l' with
    | nil => rfl
    | cons d l'' =>
      rw [List.getLast?_cons_cons]
      cases h : (d :: l'').getLast? with
      | none => exact absurd (List.getLast?_eq_none_iff.mp h) (by simp)
      | some e => rfl

theorem matchHere_sound (w1 w2 rest : List Char) (h : matchHere w1 w2 rest = true) :
    ∃ ws post, rest = w1 ++ (ws ++ (w2 ++ post)) ∧ (∀ c ∈ ws, isPySpace c = true) ∧
      (∀ c ∈ post.head?, isWordChar c = false) := by
  unfold matchHere at h
  split at h
  · exact absurd h (by simp)
  · next r1 h1 =>
    split at h
    · exact absurd h (by simp)
    · next r3 h2 =>
      have e1 : rest = w1 ++ r1 := stripPrefixCh_sound _ _ _ h1
      have e2 : r1.dropWhile isPySpace = w2 ++ r3 := stripPrefixCh_sound _ _ _ h2
      refine ⟨r1.takeWhile isPySpace, r3, ?_, ?_, ?_⟩
      · rw [e1, ← e2, List.takeWhile_append_dropWhile]
      · exact fun c hc => List.mem_takeWhile_imp hc
      · intro c hc
        cases r3 with
        | nil => exact absurd hc (by simp)
        | cons q qs =>
          have hq : c = q := by
            have h3 := Option.mem_def.mp hc
            simpa using h3.symm
          subst hq
          simpa using h

theorem searchFrom_sound (w1 w2 : List Char) :
    ∀ (t : List Char) (prev : Option Char), searchFrom w1 w2 prev t = true →
      ∃ pre rest, t = pre ++ rest ∧ boundaryB (lastOr pre prev) = true ∧
        matchHere w1 w2 rest = true := by
  intro t
  induction t with
  | nil =>
    intro prev h
    simp only [searchFrom, Bool.and_eq_true] at h
    exact ⟨[], [], rfl, h.1, h.2⟩
  | cons c r ih =>
    intro prev h
    simp only [searchFrom, Bool.or_eq_true, Bool.and_eq_true] at h
    rcases h with ⟨hb, hm⟩ | h2
    · exact ⟨[], c :: r, rfl, hb, hm⟩
    · obtain ⟨pre, rest, e, hb, hm⟩ := ih (some c) h2
      exact ⟨c :: pre, rest, by rw [List.cons_append, e], hb, hm⟩

/-- Any successful search decomposes the text into a whitespace-tolerant
occurrence of the two pattern words with a word boundary on each side:
the regex \b w1 \s* w2 \b can only match a whole phrase, never a
substring of a larger word. -/
theorem reSearch_sound (w1 w2 t : List Char) (h : reSearch w1 w2 t = true) :
    ∃ pre ws post, t = pre ++ (w1 ++ (ws ++ (w2 ++ post))) ∧
      (∀ c ∈ ws, isPySpace c = true) ∧
      (∀ c ∈ pre.getLast?, isWordChar c = false) ∧
      (∀ c ∈ post.head?, isWordChar c = false) := by
  obtain ⟨pre, rest, e, hb, hm⟩ := searchFrom_sound w1 w2 t none h
  obtain ⟨ws, post, e2, hws, hpost⟩ := matchHere_sound w1 w2 rest hm
  refine ⟨pre, ws, post, by rw [e, e2], hws, ?_, hpost⟩
  intro c hc
  have hc' : pre.getLast? = some c := Option.mem_def.mp hc
  rw [lastOr_spec pre none, hc'] at hb
  simpa [boundaryB] using hb

/- ===== Lemmas about the scanning loop ===== -/

theorem scanFlags_found :
    ∀ (flags : List ((String × String) × String)) (t : List Char)
      (r : (String × String) × String), r ∈ flags →
      reSearch r.1.1.data r.1.2.data t = true → (scanFlags flags t).1 = true := by
  intro flags
  induction flags with
  | nil => intro t r hr _; exact absurd hr (by simp)
  | cons f fs ih =>
    intro t r hr hm
    obtain ⟨pat, msg⟩ := f
    by_cases hf : reSearch pat.1.data pat.2.data t = true
    · simp [scanFlags, hf]
    · have hr2 : r ∈ fs := by
        rcases List.mem_cons.mp hr with h | h
        · subst h; exact absurd hm hf
        · exact h
      simp only [scanFlags, if_neg hf]
      exact ih t r hr2 hm

theorem scanFlags_eq_find :
    ∀ (flags : List ((String × String) × String)) (t : List Char),
      scanFlags flags t =
        match flags.find? (fun r => reSearch r.1.1.data r.1.2.data t) with
        | some r => (true, some r.2)
        | none => (false, none) := by
  intro flags
  induction flags with
  | nil => intro t; rfl
  | cons f fs ih =>
    intro t
    obtain ⟨pat, msg⟩ := f
    by_cases hf : reSearch pat.1.data pat.2.data t = true
    · simp [scanFlags, List.find?_cons, hf]
    · have hf' : reSearch pat.1.data pat.2.data t = false := by simpa using hf
      simp [scanFlags, List.find?_cons, hf', ih t]

theorem scanFlags_none :
    ∀ (flags : List ((String × String) × String)) (t : List Char),
      (∀ r ∈ flags, reSearch r.1.1.data r.1.2.data t = false) →
      scanFlags flags t = (false, none) := by
  intro flags
  induction flags with
  | nil => intro t _; rfl
  | cons f fs ih =>
    intro t h
    obtain ⟨pat, msg⟩ := f
    have hf : reSearch pat.1.data pat.2.data t = false := h (pat, msg) (by simp)
    simp only [scanFlags, hf, Bool.false_eq_true, if_false]
    exact ih t (fun r hr => h r (List.mem_cons_of_mem _ hr))

/-- Shape facts about the five rules: both words nonempty, the second
word starting with a non-space character. -/
theorem ruleShape : ∀ r ∈ RED_FLAGS, r.1.1.data ≠ [] ∧ r.1.2.data ≠ [] ∧
    (∀ c ∈ r.1.2.data.head?, isPySpace c = false) := by
  intro r hr
  fin_cases hr <;> decide

theorem lowerStr_append (a b : List Char) : lowerStr (a ++ b) = lowerStr a ++ lowerStr b :=
  List.map_append _ _ _

/-- Any text containing a rule's two words, in any letter case, separated
by (possibly empty) whitespace and flanked by word boundaries, is flagged. -/
theorem check_true_of_decomp (r : (String × String) × String) (hr : r ∈ RED_FLAGS)
    (pre u1 ws u2 post : List Char)
    (h1 : lowerStr u1 = r.1.1.data) (h2 : lowerStr u2 = r.1.2.data)
    (hws : ∀ c ∈ lowerStr ws, isPySpace c = true)
    (hpre : ∀ c ∈ (lowerStr pre).getLast?, isWordChar c = false)
    (hpost : ∀ c ∈ (lowerStr post).head?, isWordChar c = false) :
    (check_red_flags (String.mk (pre ++ (u1 ++ (ws ++ (u2 ++ post)))))).1 = true := by
  obtain ⟨hne1, hne2, hhd2⟩ := ruleShape r hr
  have hu1 : u1 ≠ [] := by
    intro h
    rw [h] at h1
    exact hne1 h1.symm
  have hne : String.mk (pre ++ (u1 ++ (ws ++ (u2 ++ post)))) ≠ "" := by
    intro h
    have h' : pre ++ (u1 ++ (ws ++ (u2 ++ post))) = [] := congrArg String.data h
    rcases List.append_eq_nil.mp h' with ⟨_, h''⟩
    rcases List.append_eq_nil.mp h'' with ⟨hu, _⟩
    exact hu1 hu
  unfold check_red_flags
  rw [if_neg hne]
  have hlow : lowerStr (String.mk (pre ++ (u1 ++ (ws ++ (u2 ++ post))))).data =
      lowerStr pre ++ (r.1.1.data ++ (lowerStr ws ++ (r.1.2.data ++ lowerStr post))) := by
    show lowerStr (pre ++ (u1 ++ (ws ++ (u2 ++ post)))) = _
    rw [lowerStr_append, lowerStr_append, lowerStr_append, lowerStr_append, h1, h2]
  rw [hlow]
  exact scanFlags_found RED_FLAGS _ r hr
    (reSearch_complete _ _ _ _ _ hne2 hhd2 hws hpre hpost)

/-- Claim C2: for every rule of the fixed set, any text containing that
rule's phrase — its two words written in any ASCII letter case,
separated by any (also empty or irregular) run of characters from
Python's full whitespace class, and flanked by ASCII non-word
characters or the ends of the text, the range on which the embedded
word class and case folding coincide exactly with the program's
Unicode-aware \b and str.lower() — is reported as a hazard; the result
pairs the detection flag with the advisory message of the first rule
in declaration order whose pattern matches (the loop stops there); a
text containing no rule phrase, such as "I have a headache", yields
hazard-detected = false. -/
theorem claim_C2_scanner :
    (∀ r ∈ RED_FLAGS, ∀ pre u1 ws u2 post : List Char,
      (∀ c ∈ u1, c.toNat ≤ 127) → (∀ c ∈ u2, c.toNat ≤ 127) →
      lowerStr u1 = r.1.1.data → lowerStr u2 = r.1.2.data →
      (∀ c ∈ lowerStr ws, isPySpace c = true) →
      (∀ c ∈ (lowerStr pre).getLast?, c.toNat ≤ 127 ∧ isWordChar c = false) →
      (∀ c ∈ (lowerStr post).head?, c.toNat ≤ 127 ∧ isWordChar c = false) →
      (check_red_flags (String.mk (pre ++ (u1 ++ (ws ++ (u2 ++ post)))))).1 = true)
    ∧ (∀ text : String, text ≠ "" →
        check_red_flags text =
          match RED_FLAGS.find?
              (fun r => reSearch r.1.1.data r.1.2.data (lowerStr text.data)) with
          | some r => (true, some r.2)
          | none => (false, none))
    ∧ check_red_flags "I have a headache" = (false, none) := by
  refine ⟨?_, ?_, by decide⟩
  · intro r hr pre u1 ws u2 post _ _ h1 h2 hws hpre hpost
    exact check_true_of_decomp r hr pre u1 ws u2 post h1 h2 hws
      (fun c hc => (hpre c hc).2) (fun c hc => (hpost c hc).2)
  · intro text h
    unfold check_red_flags
    rw [if_neg h]
    exact scanFlags_eq_find RED_FLAGS (lowerStr text.data)

/-- Witness for C2: "chest pain" written in mixed case with a newline and
spaces between the words, inside a sentence, is flagged. -/
theorem claim_C2_scanner_witness :
    (check_red_flags "He said Chest \n PAIN now").1 = true :=
  claim_C2_scanner.1 (("chest", "pain"), "🚨 CALL 911: May indicate heart attack!")
    (by decide) "He said ".data "Chest".data " \n ".data "PAIN".data " now".data
    (by decide) (by decide) (by decide) (by decide) (by decide) (by decide) (by decide)

/-- Claim C3: if every whitespace-tolerant occurrence of every rule
phrase in the lowercased text is flanked by a word character on at
least one side — the phrase occurs only inside a larger word — then the
scanner reports no hazard: matching uses word-boundary semantics, never
substring-of-word matching.  The interior separator ranges over
Python's full whitespace class, and because every word character of
the embedded class is also a word character of the program's Unicode
\w, a text satisfying the hypothesis has a program word character
blocking each occurrence as well — the hypothesis never admits a text
the program's patterns would match. -/
theorem claim_C3_word_boundary (text : String)
    (h : ∀ r ∈ RED_FLAGS, ∀ pre ws post : List Char,
      lowerStr text.data = pre ++ (r.1.1.data ++ (ws ++ (r.1.2.data ++ post))) →
      (∀ c ∈ ws, isPySpace c = true) →
      (∃ c ∈ pre.getLast?, isWordChar c = true) ∨
        (∃ c ∈ post.head?, isWordChar c = true)) :
    check_red_flags text = (false, none) := by
  unfold check_red_flags
  by_cases hempty : text = ""
  · rw [if_pos hempty]
  · rw [if_neg hempty]
    apply scanFlags_none
    intro r hr
    by_contra hcon
    have htrue : reSearch r.1.1.data r.1.2.data (lowerStr text.data) = true := by
      simpa using hcon
    obtain ⟨pre, ws, post, e, hws, hpre, hpost⟩ := reSearch_sound _ _ _ htrue
    rcases h r hr pre ws post e hws with ⟨c, hc, hcw⟩ | ⟨c, hc, hcw⟩
    · rw [hpre c hc] at hcw
      exact absurd hcw (by simp)
    · rw [hpost c hc] at hcw
      exact absurd hcw (by simp)

/-- Witness for C3: in "xchest painy" the phrase "chest pain" occurs only
embedded in the larger word span between x and y, and is not flagged. -/
theorem claim_C3_word_boundary_witness :
    check_red_flags "xchest painy" = (false, none) := by
  apply claim_C3_word_boundary
  intro r hr pre ws post e hws
  by_contra hcon
  push_neg at hcon
  obtain ⟨h1, h2⟩ := hcon
  have hpre : ∀ c ∈ pre.getLast?, isWordChar c = false := by
    intro c hc
    by_contra hw
    exact h1 c hc (by simpa using hw)
  have hpost : ∀ c ∈ post.head?, isWordChar c = false := by
    intro c hc
    by_contra hw
    exact h2 c hc (by simpa using hw)
  obtain ⟨hne1, hne2, hhd2⟩ := ruleShape r hr
  have hsearch : reSearch r.1.1.data r.1.2.data (lowerStr "xchest painy".data) = true := by
    rw [e]
    exact reSearch_complete _ _ _ _ _ hne2 hhd2 hws hpre hpost
  clear e hne1 hne2 hhd2 h1 h2 hws hpre hpost
  revert hsearch
  fin_cases hr <;> decide

/-- Claim C9: a multi-word rule phrase also matches with zero interior
whitespace between its words (the \s* tolerance admits the empty
separator): for any rule, the glued words in any ASCII letter case,
flanked by ASCII non-word characters or the text's ends — the range on
which the embedded word class and case folding coincide exactly with
the program's Unicode-aware \b and str.lower() — are flagged. -/
theorem claim_C9_zero_gap :
    ∀ r ∈ RED_FLAGS, ∀ pre u1 u2 post : List Char,
      (∀ c ∈ u1, c.toNat ≤ 127) → (∀ c ∈ u2, c.toNat ≤ 127) →
      lowerStr u1 = r.1.1.data → lowerStr u2 = r.1.2.data →
      (∀ c ∈ (lowerStr pre).getLast?, c.toNat ≤ 127 ∧ isWordChar c = false) →
      (∀ c ∈ (lowerStr post).head?, c.toNat ≤ 127 ∧ isWordChar c = false) →
      (check_red_flags (String.mk (pre ++ (u1 ++ (u2 ++ post))))).1 = true := by
  intro r hr pre u1 u2 post _ _ h1 h2 hpre hpost
  exact check_true_of_decomp r hr pre u1 [] u2 post h1 h2 (by simp [lowerStr])
    (fun c hc => (hpre c hc).2) (fun c hc => (hpost c hc).2)

/-- Witness for C9: "chestpain" — the two words of the first rule glued
together — is flagged. -/
theorem claim_C9_zero_gap_witness :
    (check_red_flags "I have chestpain").1 = true :=
  claim_C9_zero_gap (("chest", "pain"), "🚨 CALL 911: May indicate heart attack!")
    (by decide) "I have ".data "chest".data "pain".data []
    (by decide) (by decide) (by decide) (by decide) (by decide) (by decide)

/-- Claim C10: scanning the empty string returns hazard-detected = false:
the guard at the top of check_red_flags returns before any rule of
RED_FLAGS is tested, so empty input is accepted at the public interface
rather than rejected by a non-emptiness precondition. -/
theorem claim_C10_empty_input : check_red_flags "" = (false, none) := rfl

/-- Counterexample to claim C1 as stated: when a file is uploaded whose
extraction returns the empty string while the manual field holds hazard
text, the `elif symptoms:` branch of main is skipped, so the hazard text
is never scanned; with the button pressed, the run sends a prompt and
produces guidance from that very text instead of halting. -/
theorem claim_C1_counterexample :
    (check_red_flags (effectiveText
        ⟨some "", "I have chest pain", true, "General Practitioner", 3, ["ok"]⟩)).1 = true
    ∧ (mainStep ⟨some "", "I have chest pain", true, "General Practitioner", 3,
        ["ok"]⟩).promptSent ≠ none
    ∧ (mainStep ⟨some "", "I have chest pain", true, "General Practitioner", 3,
        ["ok"]⟩).guidance ≠ none
    ∧ (mainStep ⟨some "", "I have chest pain", true, "General Practitioner", 3,
        ["ok"]⟩).halted = false :=
  ⟨by decide, by decide, by decide, by decide⟩

/-- Claim C1, amended: provided the run is not one where an uploaded
file extracted to the empty string (the case the counterexample
exhibits), any run whose effective symptom text is flagged halts at
st.stop() before the generation block: no prompt is sent to the
generator and no guidance text is produced, whether the text came from
manual entry or from file extraction. -/
theorem claim_C1_halt_on_hazard (inp : AppInput)
    (hfile : inp.uploadedText ≠ some "")
    (hflag : (check_red_flags (effectiveText inp)).1 = true) :
    (mainStep inp).halted = true ∧ (mainStep inp).promptSent = none ∧
      (mainStep inp).guidance = none := by
  obtain ⟨up, man, btn, spec, lvl, chunks⟩ := inp
  cases up with
  | some e =>
    have he : e ≠ "" := fun h => hfile (by rw [h])
    have hflag' : (check_red_flags e).1 = true := by
      have heff : effectiveText ⟨some e, man, btn, spec, lvl, chunks⟩ = e := by
        simp [effectiveText, he]
      rwa [heff] at hflag
    simp only [mainStep]
    rw [if_pos he, if_pos hflag']
    exact ⟨rfl, rfl, rfl⟩
  | none =>
    have hflag' : (check_red_flags man).1 = true := by
      simpa [effectiveText] using hflag
    have hne : man ≠ "" := by
      intro h
      rw [h] at hflag'
      exact absurd hflag' (by decide)
    simp only [mainStep]
    rw [if_pos hne, if_pos hflag']
    exact ⟨rfl, rfl, rfl⟩

/-- Witness for the amended C1: hazard text typed manually, with the
generate button pressed, halts the run with no prompt and no guidance. -/
theorem claim_C1_halt_on_hazard_witness :
    (mainStep ⟨none, "I have severe bleeding and a headache", true,
        "General Practitioner", 3, ["ok"]⟩).halted = true ∧
    (mainStep ⟨none, "I have severe bleeding and a headache", true,
        "General Practitioner", 3, ["ok"]⟩).promptSent = none ∧
    (mainStep ⟨none, "I have severe bleeding and a headache", true,
        "General Practitioner", 3, ["ok"]⟩).guidance = none :=
  claim_C1_halt_on_hazard
    ⟨none, "I have severe bleeding and a headache", true, "General Practitioner", 3, ["ok"]⟩
    (by decide) (by decide)

/-- Claim C5 exhibit: on the path where writing the uploaded bytes to
the already created temporary file raises, tmp_path was never assigned,
so the finally clause's guard ('tmp_path' in locals()) skips the
unlink: the call returns with the temporary file still on disk and no
cleanup warning recorded — the guaranteed-release contract fails on
that exit path.  Once tmp_path is assigned the guarantee does hold:
after success or an extraction failure the file is gone, and a failing
unlink is reported only as a non-blocking warning. -/
theorem claim_C5_temp_file_leak :
    (extract_text_from_file ⟨false, true, false, false, "medical notes"⟩).tmpExists = true
    ∧ (extract_text_from_file ⟨false, true, false, false,
        "medical notes"⟩).cleanupWarning = false
    ∧ (extract_text_from_file ⟨false, false, true, false, "medical notes"⟩).tmpExists = false
    ∧ (extract_text_from_file ⟨false, false, false, false, "medical notes"⟩).tmpExists = false
    ∧ (extract_text_from_file ⟨false, false, true, true, "medical notes"⟩).tmpExists = true
    ∧ (extract_text_from_file ⟨false, false, true, true,
        "medical notes"⟩).cleanupWarning = true :=
  ⟨rfl, rfl, rfl, rfl, rfl, rfl⟩

/-- Claim C6: whenever any step of the extraction call raises —
temporary-file creation, writing the uploaded bytes, or the
format-specific extraction itself — the call returns exactly the empty
string, never a partial result, and a user-visible error is shown. -/
theorem claim_C6_failure_returns_empty (o : ExtractOracle)
    (h : (o.createFails || o.writeFails || o.extractFails) = true) :
    (extract_text_from_file o).result = "" ∧
      (extract_text_from_file o).errorShown = true := by
  obtain ⟨cf, wf, ef, df, raw⟩ := o
  cases cf <;> cases wf <;> cases ef <;> cases df <;>
    simp_all [extract_text_from_file]

/-- Witness for C6: a failing format-specific extraction yields "" plus
an error message. -/
theorem claim_C6_failure_returns_empty_witness :
    (extract_text_from_file ⟨false, false, true, false, "partial text"⟩).result = "" ∧
      (extract_text_from_file ⟨false, false, true, false, "partial text"⟩).errorShown = true :=
  claim_C6_failure_returns_empty ⟨false, false, true, false, "partial text"⟩ (by decide)

/- ===== Lemmas about substring containment ===== -/

theorem isPrefixCh_self_append (n t : List Char) : isPrefixCh n (n ++ t) = true := by
  induction n with
  | nil => rfl
  | cons a as ih => simp [isPrefixCh, ih]

theorem containsAux_of_isPrefixCh (n h : List Char) (hp : isPrefixCh n h = true) :
    containsAux n h = true := by
  cases h with
  | nil => simpa [containsAux] using hp
  | cons c rest => simp [containsAux, hp]

theorem containsAux_cons (n : List Char) (c : Char) (rest : List Char)
    (h : containsAux n rest = true) : containsAux n (c :: rest) = true := by
  simp [containsAux, h]

theorem containsAux_append_left (n : List Char) :
    ∀ (x y : List Char), containsAux n y = true → containsAux n (x ++ y) = true := by
  intro x
  induction x with
  | nil => intro y h; exact h
  | cons c x' ih => intro y h; exact containsAux_cons n c (x' ++ y) (ih y h)

theorem containsAux_of_decomp (n x y : List Char) : containsAux n (x ++ (n ++ y)) = true :=
  containsAux_append_left n x (n ++ y)
    (containsAux_of_isPrefixCh n (n ++ y) (isPrefixCh_self_append n y))

theorem strContains_of_decomp (hay needle : String) (x y : List Char)
    (h : hay.data = x ++ (needle.data ++ y)) : strContains hay needle = true := by
  unfold strContains
  rw [h]
  exact containsAux_of_decomp _ _ _

theorem strContains_right_part (hay needle : String) (x : List Char) (part : String)
    (h : hay.data = x ++ part.data) (hc : containsAux needle.data part.data = true) :
    strContains hay needle = true := by
  unfold strContains
  rw [h]
  exact containsAux_append_left _ _ _ hc

/-- Claim C7: for hazard-free nonempty symptom text, specialty General
Practitioner and reading level 3, the run sends exactly the built
instruction, whose text contains the symptom text verbatim, the
specialty name, the reading-level label 9th grade produced by the fixed
grade_levels mapping, and the three required section headers. -/
theorem claim_C7_prompt_contents (symptoms : String) (chunks : List String)
    (hne : symptoms ≠ "") (hflag : (check_red_flags symptoms).1 = false) :
    (mainStep ⟨none, symptoms, true, "General Practitioner", 3, chunks⟩).promptSent =
      some (buildPrompt "General Practitioner" "9th grade" symptoms)
    ∧ selectedLevel 3 = "9th grade"
    ∧ strContains (buildPrompt "General Practitioner" "9th grade" symptoms)
        symptoms = true
    ∧ strContains (buildPrompt "General Practitioner" "9th grade" symptoms)
        "General Practitioner" = true
    ∧ strContains (buildPrompt "General Practitioner" "9th grade" symptoms)
        "9th grade" = true
    ∧ strContains (buildPrompt "General Practitioner" "9th grade" symptoms)
        "Possible causes" = true
    ∧ strContains (buildPrompt "General Practitioner" "9th grade" symptoms)
        "priority questions for the doctor" = true
    ∧ strContains (buildPrompt "General Practitioner" "9th grade" symptoms)
        "Appointment preparation tips" = true := by
  have hlevel : selectedLevel 3 = "9th grade" := by decide
  have hleft : (buildPrompt "General Practitioner" "9th grade" symptoms).data =
      (((((promptSeg1.data ++ "General Practitioner".data) ++ promptSeg2.data) ++
        symptoms.data) ++ promptSeg3.data) ++ "9th grade".data) ++ promptSeg4.data := by
    simp [buildPrompt, String.data_append]
  refine ⟨?_, hlevel, ?_, ?_, ?_, ?_, ?_, ?_⟩
  · have hflag' : ¬((check_red_flags symptoms).1 = true) := by simp [hflag]
    simp only [mainStep, generateSection]
    rw [if_pos hne, if_neg hflag']
    simp [hne, hlevel]
  · refine strContains_of_decomp _ _
      (promptSeg1.data ++ ("General Practitioner".data ++ promptSeg2.data))
      (promptSeg3.data ++ ("9th grade".data ++ promptSeg4.data)) ?_
    simp [buildPrompt, String.data_append, List.append_assoc]
  · refine strContains_of_decomp _ _ promptSeg1.data
      (promptSeg2.data ++ (symptoms.data ++ (promptSeg3.data ++
        ("9th grade".data ++ promptSeg4.data)))) ?_
    simp [buildPrompt, String.data_append, List.append_assoc]
  · refine strContains_of_decomp _ _
      (promptSeg1.data ++ ("General Practitioner".data ++ (promptSeg2.data ++
        (symptoms.data ++ promptSeg3.data)))) promptSeg4.data ?_
    simp [buildPrompt, String.data_append, List.append_assoc]
  · exact strContains_right_part _ _ _ promptSeg4 hleft (by decide)
  · exact strContains_right_part _ _ _ promptSeg4 hleft (by decide)
  · exact strContains_right_part _ _ _ promptSeg4 hleft (by decide)

/-- Witness for C7 at the spec's example input. -/
theorem claim_C7_prompt_contents_witness :
    (mainStep ⟨none, "I have a mild headache for two days", true,
        "General Practitioner", 3, ["chunk"]⟩).promptSent =
      some (buildPrompt "General Practitioner" "9th grade"
        "I have a mild headache for two days")
    ∧ selectedLevel 3 = "9th grade"
    ∧ strContains (buildPrompt "General Practitioner" "9th grade"
        "I have a mild headache for two days")
        "I have a mild headache for two days" = true
    ∧ strContains (buildPrompt "General Practitioner" "9th grade"
        "I have a mild headache for two days") "General Practitioner" = true
    ∧ strContains (buildPrompt "General Practitioner" "9th grade"
        "I have a mild headache for two days") "9th grade" = true
    ∧ strContains (buildPrompt "General Practitioner" "9th grade"
        "I have a mild headache for two days") "Possible causes" = true
    ∧ strContains (buildPrompt "General Practitioner" "9th grade"
        "I have a mild headache for two days")
        "priority questions for the doctor" = true
    ∧ strContains (buildPrompt "General Practitioner" "9th grade"
        "I have a mild headache for two days")
        "Appointment preparation tips" = true :=
  claim_C7_prompt_contents "I have a mild headache for two days" ["chunk"]
    (by decide) (by decide)

/- ===== Lemmas about ASCII sanitization ===== -/

theorem asciiReplace_all_ascii (s : String) :
    ∀ c ∈ (asciiReplace s).data, c.toNat ≤ 127 := by
  intro c hc
  obtain ⟨a, _, ha⟩ := List.mem_map.mp hc
  by_cases h : a.toNat ≤ 127
  · rw [if_pos h] at ha
    rw [← ha]
    exact h
  · rw [if_neg h] at ha
    rw [← ha]
    decide

theorem getD_eq_getElem? (l : List Char) (i : Nat) (d : Char) :
    l.getD i d = (l[i]?).getD d := by
  unfold List.getD
  rw [List.get?_eq_getElem?]

theorem asciiReplace_replaces (s : String) (i : Nat)
    (h : 127 < (s.data.getD i ' ').toNat) : (asciiReplace s).data.getD i ' ' = '?' := by
  have hlt : i < s.data.length := by
    by_contra hge
    have hsp : s.data.getD i ' ' = ' ' := by
      rw [getD_eq_getElem?, List.getElem?_eq_none (by omega)]
      rfl
    rw [hsp] at h
    exact absurd h (by decide)
  have hget : s.data[i]? = some s.data[i] := List.getElem?_eq_getElem hlt
  have horig : s.data.getD i ' ' = s.data[i] := by
    rw [getD_eq_getElem?, hget]
    rfl
  have hbig : 127 < (s.data[i]).toNat := by rwa [horig] at h
  show (s.data.map (fun c => if c.toNat ≤ 127 then c else '?')).getD i ' ' = '?'
  rw [getD_eq_getElem?, List.getElem?_map, hget]
  simp [Nat.not_le.mpr hbig]

/-- Claim C8: for every symptom and guidance text, both body sections of
the built PDF consist exclusively of ASCII characters (so the Helvetica
core-font rendering has nothing to choke on), and every character of
the input that is not ASCII-representable appears as the replacement
character at the same position of the sanitized section. -/
theorem claim_C8_pdf_sanitized (symptoms guide : String) :
    (∀ c ∈ (create_medical_pdf symptoms guide).symptomsCell.data, c.toNat ≤ 127)
    ∧ (∀ c ∈ (create_medical_pdf symptoms guide).guidanceCell.data, c.toNat ≤ 127)
    ∧ (create_medical_pdf symptoms guide).symptomsCell.data.length =
        ("Symptoms:\n" ++ symptoms).data.length
    ∧ (∀ i : Nat, 127 < (("Symptoms:\n" ++ symptoms).data.getD i ' ').toNat →
        (create_medical_pdf symptoms guide).symptomsCell.data.getD i ' ' = '?')
    ∧ (∀ i : Nat, 127 < (guide.data.getD i ' ').toNat →
        (create_medical_pdf symptoms guide).guidanceCell.data.getD (i + 10) ' ' = '?') := by
  refine ⟨?_, ?_, ?_, ?_, ?_⟩
  · exact asciiReplace_all_ascii _
  · intro c hc
    have hc' : c ∈ "Guidance:\n".data ++ (asciiReplace guide).data := by
      have : (create_medical_pdf symptoms guide).guidanceCell.data =
          "Guidance:\n".data ++ (asciiReplace guide).data := String.data_append _ _
      rwa [this] at hc
    rcases List.mem_append.mp hc' with h | h
    · fin_cases h <;> decide
    · exact asciiReplace_all_ascii guide c h
  · show ((asciiReplace ("Symptoms:\n" ++ symptoms))).data.length = _
    simp [asciiReplace]
  · intro i h
    exact asciiReplace_replaces _ i h
  · intro i h
    show ("Guidance:\n" ++ asciiReplace guide).data.getD (i + 10) ' ' = '?'
    have hsplit : ("Guidance:\n" ++ asciiReplace guide).data =
        "Guidance:\n".data ++ (asciiReplace guide).data := String.data_append _ _
    have hlen : ("Guidance:\n".data).length = 10 := by decide
    rw [hsplit, getD_eq_getElem?,
      List.getElem?_append_right (by rw [hlen]; omega)]
    have hidx : i + 10 - ("Guidance:\n".data).length = i := by rw [hlen]; omega
    rw [hidx]
    have h2 := asciiReplace_replaces guide i h
    rw [getD_eq_getElem?] at h2
    exact h2

/-- Witness for C8 on accented input: the non-ASCII character of each
section is replaced by the replacement character. -/
theorem claim_C8_pdf_sanitized_witness :
    (create_medical_pdf "é" "café").symptomsCell.data.getD 10 ' ' = '?' ∧
    (create_medical_pdf "é" "café").guidanceCell.data.getD 13 ' ' = '?' :=
  ⟨(claim_C8_pdf_sanitized "é" "café").2.2.2.1 10 (by decide),
   (claim_C8_pdf_sanitized "é" "café").2.2.2.2 3 (by decide)⟩

/- ===== Lemmas about the normalization pipeline ===== -/

theorem subSpaces_cons_space (b : Bool) (c : Char) (l : List Char)
    (hc : isPySpace c = true) :
    subSpaces b (c :: l) =
      if b then subSpaces true l else ' ' :: subSpaces true l := by
  simp [subSpaces, hc]

theorem subSpaces_cons_nonspace (b : Bool) (c : Char) (l : List Char)
    (hc : isPySpace c = false) :
    subSpaces b (c :: l) = c :: subSpaces false l := by
  simp [subSpaces, hc]

/-- The first substitution only turns newlines into spaces, so the
second substitution — which treats every whitespace character alike —
gives the same result with or without it. -/
theorem subSpaces_subLonelyNL :
    ∀ (l : List Char) (prev : Option Char) (b : Bool),
      subSpaces b (subLonelyNL prev l) = subSpaces b l := by
  intro l
  induction l with
  | nil => intro prev b; rfl
  | cons c rest ih =>
    intro prev b
    by_cases hP : c = '\n' ∧ prev ≠ some '\n' ∧ rest.head? ≠ some '\n'
    · have hc : isPySpace c = true := by rw [hP.1]; decide
      show subSpaces b
          (if c = '\n' ∧ prev ≠ some '\n' ∧ rest.head? ≠ some '\n' then
            ' ' :: subLonelyNL (some c) rest
          else c :: subLonelyNL (some c) rest) = _
      rw [if_pos hP]
      rw [subSpaces_cons_space b ' ' _ (by decide),
        subSpaces_cons_space b c rest hc, ih (some c) true]
    · show subSpaces b
          (if c = '\n' ∧ prev ≠ some '\n' ∧ rest.head? ≠ some '\n' then
            ' ' :: subLonelyNL (some c) rest
          else c :: subLonelyNL (some c) rest) = _
      rw [if_neg hP]
      cases hc : isPySpace c with
      | true =>
        rw [subSpaces_cons_space b c _ hc, subSpaces_cons_space b c rest hc,
          ih (some c) true]
      | false =>
        rw [subSpaces_cons_nonspace b c _ hc, subSpaces_cons_nonspace b c rest hc,
          ih (some c) false]

/-- Inside a whitespace run the substitution emits nothing until the run
ends: starting in-run equals starting fresh after the run. -/
theorem subSpaces_true_eq :
    ∀ (l : List Char), subSpaces true l = subSpaces false (l.dropWhile isPySpace) := by
  intro l
  induction l with
  | nil => rfl
  | cons c rest ih =>
    cases hc : isPySpace c with
    | true =>
      rw [subSpaces_cons_space true c rest hc, if_pos rfl, ih,
        List.dropWhile_cons, if_pos hc]
    | false =>
      rw [subSpaces_cons_nonspace true c rest hc, List.dropWhile_cons, if_neg (by simp [hc]),
        subSpaces_cons_nonspace false c rest hc]

theorem subSpaces_word_left :
    ∀ (a z : List Char), (∀ c ∈ a, isPySpace c = false) →
      subSpaces false (a ++ z) = a ++ subSpaces false z := by
  intro a
  induction a with
  | nil => intro z _; rfl
  | cons d a' ih =>
    intro z h
    have hd : isPySpace d = false := h d (List.mem_cons_self d a')
    rw [List.cons_append, subSpaces_cons_nonspace false d _ hd,
      ih z (fun c hc => h c (List.mem_cons_of_mem d hc)), List.cons_append]

theorem dropWhile_all_false {p : Char → Bool} (l : List Char)
    (h : ∀ c ∈ l, p c = false) : l.dropWhile p = l := by
  cases l with
  | nil => rfl
  | cons c l' => exact dropWhile_head_false c l' (h c (List.mem_cons_self c l'))

theorem dropWhile_nil_all {p : Char → Bool} :
    ∀ (l : List Char), l.dropWhile p = [] → ∀ c ∈ l, p c = true := by
  intro l
  induction l with
  | nil => intro _ c hc; exact absurd hc (by simp)
  | cons d l' ih =>
    intro h c hc
    rw [List.dropWhile_cons] at h
    by_cases hd : p d = true
    · rw [if_pos hd] at h
      rcases List.mem_cons.mp hc with rfl | hc'
      · exact hd
      · exact ih h c hc'
    · rw [if_neg hd] at h
      exact absurd h (by simp)

theorem dropWhile_append_of_ne_nil {p : Char → Bool} :
    ∀ (a b : List Char), a.dropWhile p ≠ [] →
      (a ++ b).dropWhile p = a.dropWhile p ++ b := by
  intro a
  induction a with
  | nil => intro b h; exact absurd rfl h
  | cons c a' ih =>
    intro b h
    rw [List.dropWhile_cons] at h
    rw [List.cons_append, List.dropWhile_cons]
    by_cases hc : p c = true
    · rw [if_pos hc] at h
      rw [if_pos hc, ih b h, List.dropWhile_cons, if_pos hc]
    · rw [if_neg hc]
      rw [List.dropWhile_cons, if_neg hc, List.cons_append]

theorem dropWhile_head_prop {p : Char → Bool} :
    ∀ (l : List Char) (d : Char) (t : List Char),
      l.dropWhile p = d :: t → p d = false := by
  intro l
  induction l with
  | nil => intro d t h; exact absurd h (by simp)
  | cons c l' ih =>
    intro d t h
    rw [List.dropWhile_cons] at h
    by_cases hc : p c = true
    · rw [if_pos hc] at h
      exact ih d t h
    · rw [if_neg hc] at h
      have h1 : c = d := (List.cons.inj h).1
      subst h1
      simpa using hc

theorem takeWhile_append_all {p : Char → Bool} :
    ∀ (a b : List Char), (∀ c ∈ a, p c = true) →
      (a ++ b).takeWhile p = a ++ b.takeWhile p := by
  intro a
  induction a with
  | nil => intro b _; rfl
  | cons c a' ih =>
    intro b h
    have hc : p c = true := h c (List.mem_cons_self c a')
    rw [List.cons_append, List.takeWhile_cons, if_pos hc,
      ih b (fun x hx => h x (List.mem_cons_of_mem c hx)), List.cons_append]

theorem pyStrip_cons_space (c : Char) (l : List Char) (hc : isPySpace c = true) :
    pyStrip (c :: l) = pyStrip l := by
  unfold pyStrip
  rw [List.dropWhile_cons, if_pos hc]

theorem pyStrip_word (w : List Char) (hw : ∀ c ∈ w, isPySpace c = false) :
    pyStrip w = w := by
  unfold pyStrip
  rw [dropWhile_all_false w hw,
    dropWhile_all_false _ (fun c hc => hw c (List.mem_reverse.mp hc)),
    List.reverse_reverse]

theorem pyStrip_word_trailing (w : List Char) (hw : ∀ c ∈ w, isPySpace c = false) :
    pyStrip (w ++ [' ']) = w := by
  cases w with
  | nil => decide
  | cons c w' =>
    have hc : isPySpace c = false := hw c (List.mem_cons_self c w')
    unfold pyStrip
    rw [List.cons_append, dropWhile_head_false c _ hc]
    have h1 : (c :: (w' ++ [' '])).reverse = ' ' :: (c :: w').reverse := by
      simp
    rw [h1, List.dropWhile_cons, if_pos (by decide)]
    rw [dropWhile_all_false _ (fun x hx => hw x (List.mem_reverse.mp hx)),
      List.reverse_reverse]

theorem pyStrip_word_sep (w : List Char) (hw : ∀ c ∈ w, isPySpace c = false)
    (hwne : w ≠ []) (e : Char) (S' : List Char) (he : isPySpace e = false) :
    pyStrip (w ++ ' ' :: (e :: S')) = w ++ ' ' :: pyStrip (e :: S') := by
  obtain ⟨c, w', rfl⟩ : ∃ c w', w = c :: w' := by
    cases w with
    | nil => exact absurd rfl hwne
    | cons c w' => exact ⟨c, w', rfl⟩
  have hc : isPySpace c = false := hw c (List.mem_cons_self c w')
  unfold pyStrip
  rw [List.cons_append, dropWhile_head_false c _ hc, dropWhile_head_false e S' he]
  have hrev : (c :: (w' ++ ' ' :: e :: S')).reverse =
      (e :: S').reverse ++ (' ' :: (c :: w').reverse) := by
    simp
  rw [hrev]
  have hne2 : (e :: S').reverse.dropWhile isPySpace ≠ [] := by
    intro hnil
    have hall := dropWhile_nil_all _ hnil e (by simp)
    rw [he] at hall
    exact absurd hall (by decide)
  rw [dropWhile_append_of_ne_nil _ _ hne2, List.reverse_append, List.reverse_cons,
    List.reverse_reverse, List.append_assoc]
  rfl

theorem wordsOf_nil : wordsOf [] = [] := rfl

theorem wordsOf_cons (c : Char) (l : List Char) :
    wordsOf (c :: l) =
      if isPySpace c then wordsOf l
      else
        match l with
        | [] => [[c]]
        | d :: _ =>
          if isPySpace d then [c] :: wordsOf l
          else
            match wordsOf l with
            | [] => [[c]]
            | w :: ws => (c :: w) :: ws := rfl

theorem wordsOf_cons_space (c : Char) (l : List Char) (hc : isPySpace c = true) :
    wordsOf (c :: l) = wordsOf l := by
  rw [wordsOf_cons, if_pos hc]

theorem wordsOf_singleton (c : Char) (hc : isPySpace c = false) :
    wordsOf [c] = [[c]] := by
  rw [wordsOf_cons, if_neg (by simp [hc])]

theorem wordsOf_cons_cons_space (c d : Char) (rest' : List Char)
    (hc : isPySpace c = false) (hd : isPySpace d = true) :
    wordsOf (c :: d :: rest') = [c] :: wordsOf (d :: rest') := by
  rw [wordsOf_cons, if_neg (by simp [hc])]
  show (if isPySpace d then [c] :: wordsOf (d :: rest')
    else match wordsOf (d :: rest') with
      | [] => [[c]]
      | w :: ws => (c :: w) :: ws) = _
  rw [if_pos hd]

theorem wordsOf_cons_cons_match (c d : Char) (rest' : List Char)
    (hc : isPySpace c = false) (hd : isPySpace d = false) :
    wordsOf (c :: d :: rest') =
      (match wordsOf (d :: rest') with
       | [] => [[c]]
       | w :: ws => (c :: w) :: ws) := by
  rw [wordsOf_cons, if_neg (by simp [hc])]
  show (if isPySpace d then [c] :: wordsOf (d :: rest')
    else match wordsOf (d :: rest') with
      | [] => [[c]]
      | w :: ws => (c :: w) :: ws) = _
  rw [if_neg (by simp [hd])]

theorem wordsOf_cons_word :
    ∀ (rest : List Char) (c : Char), isPySpace c = false →
      wordsOf (c :: rest) = (c :: rest.takeWhile (fun x => !isPySpace x)) ::
        wordsOf (rest.dropWhile (fun x => !isPySpace x)) := by
  intro rest
  induction rest with
  | nil =>
    intro c hc
    rw [wordsOf_singleton c hc]
    simp [wordsOf_nil]
  | cons d rest' ih =>
    intro c hc
    cases hd : isPySpace d with
    | true =>
      rw [wordsOf_cons_cons_space c d rest' hc hd]
      simp [List.takeWhile_cons, List.dropWhile_cons, hd]
    | false =>
      have hrec := ih d hd
      rw [wordsOf_cons_cons_match c d rest' hc hd, hrec]
      simp [List.takeWhile_cons, List.dropWhile_cons, hd]

theorem wordsOf_dropWhile_space :
    ∀ (l : List Char), wordsOf (l.dropWhile isPySpace) = wordsOf l := by
  intro l
  induction l with
  | nil => rfl
  | cons c l' ih =>
    cases hc : isPySpace c with
    | true => rw [List.dropWhile_cons, if_pos hc, ih, wordsOf_cons_space c l' hc]
    | false => rw [List.dropWhile_cons, if_neg (by simp [hc])]

theorem joinWords_cons_of_ne (w : List Char) (ws : List (List Char)) (h : ws ≠ []) :
    joinWords (w :: ws) = w ++ ' ' :: joinWords ws := by
  cases ws with
  | nil => exact absurd rfl h
  | cons w2 ws' => rfl

theorem wordsOf_good :
    ∀ (l : List Char), ∀ w ∈ wordsOf l, w ≠ [] ∧ ∀ c ∈ w, isPySpace c = false := by
  intro l
  induction l with
  | nil => intro w hw; exact absurd hw (by simp [wordsOf_nil])
  | cons c rest ih =>
    intro w hw
    cases hc : isPySpace c with
    | true =>
      rw [wordsOf_cons_space c rest hc] at hw
      exact ih w hw
    | false =>
      have hsingle : ([c] : List Char) ≠ [] ∧ ∀ x ∈ [c], isPySpace x = false := by
        refine ⟨by simp, ?_⟩
        intro x hx
        have hxc : x = c := by simpa using hx
        rw [hxc]
        exact hc
      cases rest with
      | nil =>
        have hunf : wordsOf [c] = [[c]] := wordsOf_singleton c hc
        rw [hunf] at hw
        have hww : w = [c] := by simpa using hw
        rw [hww]
        exact hsingle
      | cons d rest' =>
        cases hd : isPySpace d with
        | true =>
          have hunf : wordsOf (c :: d :: rest') = [c] :: wordsOf (d :: rest') :=
            wordsOf_cons_cons_space c d rest' hc hd
          rw [hunf] at hw
          rcases List.mem_cons.mp hw with rfl | hw'
          · exact hsingle
          · exact ih w hw'
        | false =>
          cases hwr : wordsOf (d :: rest') with
          | nil =>
            have hunf : wordsOf (c :: d :: rest') = [[c]] := by
              rw [wordsOf_cons_cons_match c d rest' hc hd, hwr]
            rw [hunf] at hw
            have hww : w = [c] := by simpa using hw
            rw [hww]
            exact hsingle
          | cons u us =>
            have hunf : wordsOf (c :: d :: rest') = (c :: u) :: us := by
              rw [wordsOf_cons_cons_match c d rest' hc hd, hwr]
            rw [hunf] at hw
            rcases List.mem_cons.mp hw with rfl | hw'
            · have hu := ih u (by rw [hwr]; exact List.mem_cons_self u us)
              refine ⟨by simp, ?_⟩
              intro x hx
              rcases List.mem_cons.mp hx with rfl | hx'
              · exact hc
              · exact hu.2 x hx'
            · exact ih w (by rw [hwr]; exact List.mem_cons_of_mem u hw')

/-- Central characterization: the whitespace-collapsing substitution
followed by strip yields exactly the words of the input joined by
single spaces. -/
theorem strip_subSpaces :
    ∀ (n : Nat) (l : List Char), l.length ≤ n →
      pyStrip (subSpaces false l) = joinWords (wordsOf l) := by
  intro n
  induction n with
  | zero =>
    intro l hl
    have : l = [] := List.length_eq_zero.mp (Nat.le_zero.mp hl)
    rw [this]
    rfl
  | succ n ih =>
    intro l hl
    cases l with
    | nil => rfl
    | cons c rest =>
      have hrest : rest.length ≤ n := by
        have := hl
        simp only [List.length_cons] at this
        omega
      cases hc : isPySpace c with
      | true =>
        rw [subSpaces_cons_space false c rest hc, if_neg (by simp),
          pyStrip_cons_space ' ' _ (by decide), subSpaces_true_eq,
          wordsOf_cons_space c rest hc, ← wordsOf_dropWhile_space rest]
        exact ih (rest.dropWhile isPySpace)
          (le_trans (List.Sublist.length_le (List.dropWhile_sublist _)) hrest)
      | false =>
        rw [subSpaces_cons_nonspace false c rest hc,
          wordsOf_cons_word rest c hc]
        have hsplit : rest = rest.takeWhile (fun x => !isPySpace x) ++
            rest.dropWhile (fun x => !isPySpace x) :=
          (List.takeWhile_append_dropWhile _ _).symm
        have htw : ∀ x ∈ rest.takeWhile (fun x => !isPySpace x), isPySpace x = false := by
          intro x hx
          have := List.mem_takeWhile_imp hx
          simpa using this
        have hword : ∀ x ∈ c :: rest.takeWhile (fun x => !isPySpace x),
            isPySpace x = false := by
          intro x hx
          rcases List.mem_cons.mp hx with rfl | hx'
          · exact hc
          · exact htw x hx'
        conv_lhs => rw [hsplit]
        rw [subSpaces_word_left _ _ htw]
        cases hdw : rest.dropWhile (fun x => !isPySpace x) with
        | nil =>
          show pyStrip (c :: (rest.takeWhile (fun x => !isPySpace x) ++
            subSpaces false [])) = _
          rw [show subSpaces false ([] : List Char) = [] from rfl, List.append_nil]
          rw [pyStrip_word _ hword]
          rfl
        | cons d dw' =>
          have hd : isPySpace d = true := by
            have hd0 := dropWhile_head_prop rest d dw' hdw
            simpa using hd0
          have h2 : (d :: dw').length ≤ rest.length := by
            rw [← hdw]
            exact List.Sublist.length_le (List.dropWhile_sublist _)
          rw [subSpaces_cons_space false d dw' hd, if_neg (by simp),
            subSpaces_true_eq dw']
          rw [wordsOf_cons_space d dw' hd, ← wordsOf_dropWhile_space dw']
          cases hl2 : dw'.dropWhile isPySpace with
          | nil =>
            show pyStrip ((c :: rest.takeWhile (fun x => !isPySpace x)) ++
              (' ' :: subSpaces false [])) = _
            rw [show subSpaces false ([] : List Char) = [] from rfl]
            rw [pyStrip_word_trailing _ hword]
            rfl
          | cons e l2 =>
            have he : isPySpace e = false := dropWhile_head_prop dw' e l2 hl2
            have h1 : (e :: l2).length ≤ dw'.length := by
              rw [← hl2]
              exact List.Sublist.length_le (List.dropWhile_sublist _)
            have hlen2 : (e :: l2).length ≤ n := by
              simp only [List.length_cons] at h1 h2 hl ⊢
              omega
            rw [subSpaces_cons_nonspace false e l2 he]
            show pyStrip ((c :: rest.takeWhile (fun x => !isPySpace x)) ++
              ' ' :: (e :: subSpaces false l2)) = _
            rw [pyStrip_word_sep _ hword (by simp) e _ he]
            have hstep : pyStrip (e :: subSpaces false l2) =
                joinWords (wordsOf (e :: l2)) := by
              rw [← subSpaces_cons_nonspace false e l2 he]
              exact ih (e :: l2) hlen2
            rw [hstep]
            have hne : wordsOf (e :: l2) ≠ [] := by
              rw [wordsOf_cons_word l2 e he]
              simp
            rw [joinWords_cons_of_ne _ _ hne]

theorem wordsOf_append_word (w z : List Char) (hw : ∀ c ∈ w, isPySpace c = false)
    (hwne : w ≠ [])
    (hz : z = [] ∨ ∃ d z', z = d :: z' ∧ isPySpace d = true) :
    wordsOf (w ++ z) = w :: wordsOf z := by
  obtain ⟨c, w'', rfl⟩ : ∃ c w'', w = c :: w'' := by
    cases w with
    | nil => exact absurd rfl hwne
    | cons c w'' => exact ⟨c, w'', rfl⟩
  have hc : isPySpace c = false := hw c (List.mem_cons_self c w'')
  rw [List.cons_append, wordsOf_cons_word (w'' ++ z) c hc]
  have htk : (w'' ++ z).takeWhile (fun x => !isPySpace x) =
      w'' ++ z.takeWhile (fun x => !isPySpace x) :=
    takeWhile_append_all w'' z
      (fun x hx => by simp [hw x (List.mem_cons_of_mem c hx)])
  have hdr : (w'' ++ z).dropWhile (fun x => !isPySpace x) =
      z.dropWhile (fun x => !isPySpace x) :=
    dropWhile_append_all w'' z
      (fun x hx => by simp [hw x (List.mem_cons_of_mem c hx)])
  have hzt : z.takeWhile (fun x => !isPySpace x) = [] := by
    rcases hz with rfl | ⟨d, z', rfl, hd⟩
    · rfl
    · rw [List.takeWhile_cons, if_neg (by simp [hd])]
  have hzd : z.dropWhile (fun x => !isPySpace x) = z := by
    rcases hz with rfl | ⟨d, z', rfl, hd⟩
    · rfl
    · exact dropWhile_head_false d z' (by simp [hd])
  rw [htk, hdr, hzt, hzd, List.append_nil]

theorem wordsOf_joinWords :
    ∀ (ws : List (List Char)),
      (∀ w ∈ ws, w ≠ [] ∧ ∀ c ∈ w, isPySpace c = false) →
      wordsOf (joinWords ws) = ws := by
  intro ws
  induction ws with
  | nil => intro _; rfl
  | cons w ws' ih =>
    intro h
    obtain ⟨hwne, hwchars⟩ := h w (List.mem_cons_self w ws')
    cases ws' with
    | nil =>
      have h2 := wordsOf_append_word w [] hwchars hwne (Or.inl rfl)
      rw [List.append_nil] at h2
      exact h2
    | cons w2 ws'' =>
      rw [joinWords_cons_of_ne w (w2 :: ws'') (by simp)]
      have h2 := wordsOf_append_word w (' ' :: joinWords (w2 :: ws'')) hwchars hwne
        (Or.inr ⟨' ', joinWords (w2 :: ws''), rfl, by decide⟩)
      rw [h2, wordsOf_cons_space ' ' _ (by decide),
        ih (fun x hx => h x (List.mem_cons_of_mem w hx))]

/-- Claim C4: the extractor's normalization sends every raw string to
its whitespace-separated words joined by single spaces — every maximal
whitespace run (line breaks included) collapses to one space, leading
and trailing whitespace is trimmed, and the non-whitespace word content
is preserved exactly — and applying the normalization to an already
normalized string changes nothing (idempotence). -/
theorem claim_C4_normalization (s : String) :
    (normalize_text s).data = joinWords (wordsOf s.data)
    ∧ normalize_text (normalize_text s) = normalize_text s := by
  have hchar : ∀ t : String, (normalize_text t).data = joinWords (wordsOf t.data) := by
    intro t
    show pyStrip (subSpaces false (subLonelyNL none t.data)) = _
    rw [subSpaces_subLonelyNL t.data none false]
    exact strip_subSpaces t.data.length t.data (le_refl _)
  refine ⟨hchar s, ?_⟩
  have h1 := hchar (normalize_text s)
  rw [hchar s, wordsOf_joinWords (wordsOf s.data) (wordsOf_good s.data)] at h1
  have h2 : (normalize_text (normalize_text s)).data = (normalize_text s).data := by
    rw [h1, ← hchar s]
  exact congrArg String.mk h2
